import Mathlib

/-!
Verification development for the sparkySMTPProxy repository (an SMTP reverse
proxy written in Go).  The Go code is shallowly embedded: pure computations
become Lean functions, stateful writers become explicit state passing, Go
`error` values become `Option String` (`none` = nil), byte strings are
modelled as `List Nat` or `String` (all inputs considered are ASCII, where Go
byte indexing and Lean character indexing agree).

Sections:
  1. Line splitter (`linesplitter` type, `NewWriter`/`Write`)
  2. Session / backend protocol bridge (`Backend.Init`, `Session.StartTLS`,
     `Session.Passthru` and the phase wrappers, `Session.DataCommand`)
  3. Error translator (`byteDigitToInt`, `makeEnhancedCode`, `errToSmtpErr`)
  4. MIME transcoder (`mailCopy`, `handleMessagePart`, `handleMultiPart`,
     `handlePlainPart`, with models of the Go std-library base64 decoder and
     quoted-printable writer that the source composes)
-/

set_option maxRecDepth 8192

/-- Bytes are modelled as natural numbers. -/
abbrev Byte := Nat

/-! ## 1. Line splitter

Source: `linesplitter` with `NewWriter(len, sep, w)` and `Write(in)`.
The wrapped writer `w` is modelled by returning the emitted bytes; the
struct state that persists across `Write` calls is the current
count-within-chunk (`ls.count`). -/

/-- Fuel-indexed translation of the `Write` loop of `linesplitter`.
Arguments: group length `L` (`ls.len`), separator `sep` (`ls.sep`), fuel,
input slice, current `ls.count`.  Each loop iteration writes a chunk of size
`min |in| (L - count)` for the first iteration and `min inToGo L` for later
ones, emitting `sep` and resetting the count whenever the count reaches `L`;
it breaks when no input remains.  When the count stays below `L` the chunk
was the whole remaining input, so the loop re-entry always starts from count
0, which the recursive call reflects.  Fuel `|in|` suffices because every
iteration consumes at least one byte when `count < L` (the `cs = 0` guard is
unreachable then).  Returns (bytes emitted to `w`, new `ls.count`). -/
def lsWriteF (L : Nat) (sep : List Byte) : Nat → List Byte → Nat → List Byte × Nat
  | _, [], count => ([], count)
  | 0, _ :: _, count => ([], count)
  | fuel + 1, b :: bs, count =>
    let inp := b :: bs
    let cs := min inp.length (L - count)
    if cs = 0 then ([], count)
    else
      let chunk := inp.take cs
      let rest := inp.drop cs
      if L ≤ count + cs then
        let r := lsWriteF L sep fuel rest 0
        (chunk ++ sep ++ r.1, r.2)
      else
        (chunk, count + cs)

/-- One `Write` call of the line splitter: (emitted bytes, new count). -/
def lsWrite (L : Nat) (sep : List Byte) (inp : List Byte) (count : Nat) :
    List Byte × Nat :=
  lsWriteF L sep inp.length inp count

/-- One `Write` call folded into an (output so far, count) accumulator. -/
def lsWriteStep (L : Nat) (sep : List Byte) (acc : List Byte × Nat)
    (p : List Byte) : List Byte × Nat :=
  let r := lsWrite L sep p acc.2
  (acc.1 ++ r.1, r.2)

/-- A sequence of `Write` calls on a fresh splitter (`NewWriter` sets count 0),
one call per piece, accumulating the emitted bytes. -/
def lsWriteSeq (L : Nat) (sep : List Byte) (ps : List (List Byte)) :
    List Byte × Nat :=
  ps.foldl (lsWriteStep L sep) ([], 0)

/-- The output shape the specification describes: groups of exactly `L`
bytes, each followed by `sep`; a final group shorter than `L` is left with no
trailing separator.  (Fuel-indexed; fuel `|bs|` suffices when `L ≥ 1`.) -/
def lsGroupsF (L : Nat) (sep : List Byte) : Nat → List Byte → List Byte
  | _, [] => []
  | 0, bs => bs
  | fuel + 1, bs =>
    if bs.length < L then bs
    else bs.take L ++ sep ++ lsGroupsF L sep fuel (bs.drop L)

/-- Spec-side splitting of a whole byte sequence into `L`-groups. -/
def lsGroups (L : Nat) (sep : List Byte) (bs : List Byte) : List Byte :=
  lsGroupsF L sep bs.length bs

/-- Byte-at-a-time reference step: append the byte, bump the count, emit the
separator and reset once the count reaches `L`. -/
def lsStep (L : Nat) (sep : List Byte) (acc : List Byte × Nat) (b : Byte) :
    List Byte × Nat :=
  let out := acc.1 ++ [b]
  let c := acc.2 + 1
  if L ≤ c then (out ++ sep, 0) else (out, c)

/-- Byte-at-a-time reference run from output `[]` and count `c`. -/
def lsRun (L : Nat) (sep : List Byte) (inp : List Byte) (c : Nat) :
    List Byte × Nat :=
  inp.foldl (lsStep L sep) ([], c)

/-! ## 2. Session / backend protocol bridge

Source: the `go-smtpproxy`-based proxy (`Backend`, `Session`, `Init`,
`StartTLS`, `Auth`/`Mail`/`Rcpt`/`Reset`/`Quit`/`Unknown`, `Passthru`,
`DataCommand`).  The upstream `smtpproxy.Client` is external; it is modelled
as a record holding its current TLS state (`TLSConnectionState`) together
with the responses the upstream server would give to each operation.  A
successful `Client.StartTLS` secures the connection, so the model flips
`isTLS` to true exactly when the negotiation response carries a nil error.
Network I/O performed on the upstream connection is made observable as a
trace of `UpCall` events; logging (gated on `verbose`) is modelled only where
a claim mentions it (`Backend.Init`). -/

/-- A `(code, message, error)` response triple. -/
abbrev Resp := Nat × String × Option String

/-- Model of the upstream `smtpproxy.Client`. -/
structure Client where
  isTLS : Bool
  startTLSResp : Resp
  myCmdResp : Nat → String → Resp
  dataResp : Resp

/-- Model of the proxy `Backend` configuration. -/
structure Backend where
  outHostPort : String
  verbose : Bool
  requireUpstreamTLS : Bool

/-- Model of the proxy `Session` (the fields phase handlers touch). -/
structure Session where
  upstream : Client
  blockUpstream : Bool

/-- `const upstreamBlockMsg`. -/
def upstreamBlockMsg : String := "Unable to handle messages at the moment, sorry"

/-- `const upstreamBlockCode = 500`. -/
def upstreamBlockCode : Nat := 500

/-- The fixed triple every blocked short-circuit returns:
`upstreamBlockCode, "4.0.0 " + upstreamBlockMsg, errors.New(upstreamBlockMsg)`. -/
def blockResp : Resp :=
  (upstreamBlockCode, "4.0.0 " ++ upstreamBlockMsg, some upstreamBlockMsg)

/-- One upstream I/O operation (an invocation of the Upstream Connector). -/
inductive UpCall where
  | startTLSCall
  | myCmdCall (expectcode : Nat) (joined : String)
  | dataCall
deriving DecidableEq

/-- The success response of the already-secure branch of `Session.StartTLS`. -/
def alreadySecureResp : Resp :=
  (220, "2.0.0 Ready to start TLS, upstream is already secure", none)

/-- `Session.StartTLS`: if the upstream connection is already TLS, return the
already-secure success without negotiating; else if the session is blocked,
return the fixed block response; else negotiate with the upstream server and
return its response verbatim.  Result: (response, updated session, upstream
calls performed). -/
def sessionStartTLS (s : Session) : Resp × Session × List UpCall :=
  if s.upstream.isTLS then
    (alreadySecureResp, s, [])
  else if s.blockUpstream then
    (blockResp, s, [])
  else
    let r := s.upstream.startTLSResp
    let c := if r.2.2 = none then { s.upstream with isTLS := true } else s.upstream
    (r, { s with upstream := c }, [UpCall.startTLSCall])

/-- `joined := cmd; if arg != "" { joined = cmd + " " + arg }`. -/
def joinCmd (cmd arg : String) : String :=
  if arg = "" then cmd else cmd ++ " " ++ arg

/-- `Session.Passthru`: blocked sessions short-circuit with the fixed block
response; otherwise the joined command text goes to `upstream.MyCmd` and its
triple is returned verbatim.  Result: (response, upstream calls performed);
the session state is not modified by this handler. -/
def sessionPassthru (s : Session) (expectcode : Nat) (cmd arg : String) :
    Resp × List UpCall :=
  if s.blockUpstream then (blockResp, [])
  else (s.upstream.myCmdResp expectcode (joinCmd cmd arg),
    [UpCall.myCmdCall expectcode (joinCmd cmd arg)])

/-- `Session.Auth` forwards to `Passthru`. -/
def sessionAuth (s : Session) (expectcode : Nat) (cmd arg : String) :
    Resp × List UpCall := sessionPassthru s expectcode cmd arg

/-- `Session.Mail` forwards to `Passthru`. -/
def sessionMail (s : Session) (expectcode : Nat) (cmd arg : String) :
    Resp × List UpCall := sessionPassthru s expectcode cmd arg

/-- `Session.Rcpt` forwards to `Passthru`. -/
def sessionRcpt (s : Session) (expectcode : Nat) (cmd arg : String) :
    Resp × List UpCall := sessionPassthru s expectcode cmd arg

/-- `Session.Reset` forwards to `Passthru`. -/
def sessionReset (s : Session) (expectcode : Nat) (cmd arg : String) :
    Resp × List UpCall := sessionPassthru s expectcode cmd arg

/-- `Session.Quit` forwards to `Passthru`. -/
def sessionQuit (s : Session) (expectcode : Nat) (cmd arg : String) :
    Resp × List UpCall := sessionPassthru s expectcode cmd arg

/-- `Session.Unknown` forwards to `Passthru`. -/
def sessionUnknown (s : Session) (expectcode : Nat) (cmd arg : String) :
    Resp × List UpCall := sessionPassthru s expectcode cmd arg

/-- `Session.DataCommand`: blocked sessions short-circuit with the fixed
block response; otherwise `upstream.Data()` is invoked and its code, message
and error are returned (the returned body writer is not modelled). -/
def sessionDataCommand (s : Session) : Resp × List UpCall :=
  if s.blockUpstream then (blockResp, [])
  else (s.upstream.dataResp, [UpCall.dataCall])

/-- A phase invocation, for reasoning about call sequences on one session. -/
inductive Phase where
  | startTLSPhase
  | passthruPhase (expectcode : Nat) (cmd arg : String)
  | dataPhase

/-- State/trace effect of one phase call (`Passthru` and `DataCommand` do not
modify the session). -/
def stepPhase (s : Session) : Phase → Session × List UpCall
  | .startTLSPhase => ((sessionStartTLS s).2.1, (sessionStartTLS s).2.2)
  | .passthruPhase ec cmd arg => (s, (sessionPassthru s ec cmd arg).2)
  | .dataPhase => (s, (sessionDataCommand s).2)

/-- Run a sequence of phase calls, accumulating all upstream I/O. -/
def runPhases (s : Session) (ps : List Phase) : Session × List UpCall :=
  ps.foldl (fun acc p =>
    let r := stepPhase acc.1 p
    (r.1, acc.2 ++ r.2)) (s, [])

/-- Result of `Backend.Init`: the session's upstream field (`nil` when the
dial failed), the returned error, and the log lines written (logging is gated
on `verbose`; the `respTwiddle` flow-marker argument is omitted). -/
structure InitResult where
  upstream : Option Client
  err : Option String
  logs : List String

/-- `Backend.Init`: dial upstream; record the client (even a nil one) in the
session; log a connection-error line on failure; then unconditionally log the
connection-success line and return the session with a nil error. -/
def backendInit (bkd : Backend) (dialResult : Except String Client) : InitResult :=
  let upstream : Option Client :=
    match dialResult with
    | .ok c => some c
    | .error _ => none
  let errLogs : List String :=
    match dialResult with
    | .ok _ => []
    | .error e =>
      if bkd.verbose then ["Connection error " ++ bkd.outHostPort ++ " " ++ e] else []
  let succLogs : List String :=
    if bkd.verbose then ["Connection success " ++ bkd.outHostPort] else []
  { upstream := upstream
    err := none
    logs := (if bkd.verbose then ["---Connecting upstream"] else []) ++ errLogs ++ succLogs }

/-- A concrete upstream client that is already TLS-secured. -/
def tlsClient : Client :=
  { isTLS := true
    startTLSResp := (454, "4.7.0 TLS not available", some "tls failed")
    myCmdResp := fun _ _ => (250, "2.0.0 OK", none)
    dataResp := (354, "Go ahead", none) }

/-- A blocked session whose upstream connection is already TLS-secured. -/
def blockedTLSSession : Session :=
  { upstream := tlsClient, blockUpstream := true }

/-- A concrete plaintext upstream client. -/
def plainClient : Client :=
  { isTLS := false
    startTLSResp := (220, "2.0.0 Ready to start TLS", none)
    myCmdResp := fun _ _ => (250, "2.0.0 OK", none)
    dataResp := (354, "Go ahead", none) }

/-- A blocked session whose upstream connection is still plaintext. -/
def blockedPlainSession : Session :=
  { upstream := plainClient, blockUpstream := true }

/-- An unblocked session whose upstream is already TLS-secured. -/
def secureSession : Session :=
  { upstream := tlsClient, blockUpstream := false }

/-! ## 3. Error translator

Source: `byteDigitToInt`, `makeEnhancedCode`, `errToSmtpErr` (identical in
both proxy variants that contain them, up to logging).  Go indexes the
message by bytes; all messages considered are ASCII, where byte and character
indexing agree, so messages are modelled as `String` and indexed through
`toList`. -/

/-- `smtp.EnhancedCode` is `[3]int`. -/
abbrev EnhancedCode := Int × Int × Int

/-- `smtp.EnhancedCodeNotSet = {-1, -1, -1}`. -/
def EnhancedCodeNotSet : EnhancedCode := (-1, -1, -1)

/-- `smtp.SMTPError`. -/
structure SMTPError where
  code : Nat
  enhancedCode : EnhancedCode
  message : String
deriving DecidableEq

/-- The error values reaching `errToSmtpErr`: an `*smtp.SMTPError`, a
`*textproto.Error` (numeric code plus message line), or any other error
carrying only text. -/
inductive GoError where
  | smtpError (e : SMTPError)
  | textprotoError (code : Nat) (msg : String)
  | plainError (text : String)

/-- `byteDigitToInt(c) = strconv.Atoi(string(c))`: a single byte parses as an
integer exactly when it is a decimal digit. -/
def byteDigitToInt (c : Char) : Option Int :=
  if 48 ≤ c.toNat ∧ c.toNat ≤ 57 then some ((c.toNat : Int) - 48) else none

/-- `makeEnhancedCode`: three digit bytes make an enhanced code; any parse
failure yields `EnhancedCodeNotSet`. -/
def makeEnhancedCode (c0 c1 c2 : Char) : EnhancedCode :=
  match byteDigitToInt c0, byteDigitToInt c1, byteDigitToInt c2 with
  | some d0, some d1, some d2 => (d0, d1, d2)
  | _, _, _ => EnhancedCodeNotSet

/-- `errToSmtpErr`: pass structured SMTP errors through unchanged; promote a
`textproto.Error` — when the message is at least 6 bytes and bytes 1, 3 and 5
are `.`, `.` and a space, parse bytes 0, 2 and 4 as the enhanced code and
strip the 6-byte front of the message (note the strip happens on separator
shape alone, whether or not the digit positions parsed); any other error
maps to code 0, enhanced code not-set and its text verbatim. -/
def errToSmtpErr (e : GoError) : SMTPError :=
  match e with
  | .smtpError se => se
  | .textprotoError code msg =>
    if 6 ≤ msg.toList.length then
      if msg.toList.getD 1 'x' = '.' ∧ msg.toList.getD 3 'x' = '.' ∧
          msg.toList.getD 5 'x' = ' ' then
        { code := code
          enhancedCode := makeEnhancedCode (msg.toList.getD 0 'x')
            (msg.toList.getD 2 'x') (msg.toList.getD 4 'x')
          message := String.mk (msg.toList.drop 6) }
      else { code := code, enhancedCode := EnhancedCodeNotSet, message := msg }
    else { code := code, enhancedCode := EnhancedCodeNotSet, message := msg }
  | .plainError t => { code := 0, enhancedCode := EnhancedCodeNotSet, message := t }

/-- The separator-shape test of the `textproto.Error` branch: length at least
6 and `.`, `.`, space at byte positions 1, 3, 5. -/
def sepShapeOk (msg : String) : Bool :=
  let cs := msg.toList
  decide (6 ≤ cs.length) && (cs.getD 1 'x' == '.') && (cs.getD 3 'x' == '.') &&
    (cs.getD 5 'x' == ' ')

/-- Whether the three digit positions (bytes 0, 2, 4) all parse as digits. -/
def digitsOk (msg : String) : Bool :=
  let cs := msg.toList
  (byteDigitToInt (cs.getD 0 'x')).isSome && (byteDigitToInt (cs.getD 2 'x')).isSome &&
    (byteDigitToInt (cs.getD 4 'x')).isSome

/-! ## 4. MIME transcoder

Source: `mailCopy`, `handleMessageBody`, `handleMessagePart`,
`handlePlainPart`, `handleHTMLPart`, `handleMultiPart` (the variant that
normalizes HTML transfer encodings, which the spec adopts as canonical; the
plain-`mailcopy.go` variant differs only inside the `text/html` leaf branch
and in copying the full part header, neither of which the claims below
depend on).

The Go standard-library pieces the source composes are modelled from their
behaviour:
- `mime.ParseMediaType` (restricted to the simple `type/subtype` and
  `type/subtype; key=value` shapes used here),
- `base64.NewDecoder` with `StdEncoding`,
- `mime/quotedprintable.Writer`, including its line buffering: bytes are
  gathered into a line buffer that is flushed to the underlying writer only
  on a CRLF, on a soft line break at the 76-column limit, or on `Close`.
  The source never calls `Close` on the writer it wraps around a part, a
  fact visible in `handleMessagePart`.
- `multipart.Writer.CreatePart` (fresh writer per part, so each part opens
  with `--boundary` + CRLF; header keys are emitted in sorted order),
- `textproto.ReadMIMEHeader` key canonicalization for `mail.ReadMessage`
  (restricted to single-line, non-folded header fields).

The nested part structure that `multipart.Reader` yields is represented as a
`MimeTree`; `message/rfc822` nesting is not modelled (no claim exercises
it, the model returns `none` there). -/

/-- Maximum quoted-printable line length (`lineMaxLen = 76`). -/
def qpLineMaxLen : Nat := 76

/-- State of a `quotedprintable.Writer`: the buffered current line
(`w.line[:w.i]`) and the pending-CR flag (`w.cr`). -/
structure QPWriter where
  line : List Char
  cr : Bool

/-- A fresh `quotedprintable.NewWriter`. -/
def qpWriterNew : QPWriter := { line := [], cr := false }

/-- `flush`: hand the buffered line to the underlying writer. -/
def qpFlush (w : QPWriter) : QPWriter × List Char :=
  ({ w with line := [] }, w.line)

/-- `insertCRLF`: append CRLF to the line buffer, then flush. -/
def qpInsertCRLF (w : QPWriter) : QPWriter × List Char :=
  qpFlush { w with line := w.line ++ ['\r', '\n'] }

/-- `insertSoftLineBreak`: append `=` then CRLF-and-flush. -/
def qpSoftBreak (w : QPWriter) : QPWriter × List Char :=
  qpInsertCRLF { w with line := w.line ++ ['='] }

/-- Upper-case hexadecimal digit. -/
def qpHexDigit (n : Nat) : Char :=
  if n < 10 then Char.ofNat (48 + n) else Char.ofNat (55 + n)

/-- `encode(b)`: soft-break if fewer than 3 columns remain, then buffer
`=XX`. -/
def qpEncodeByte (w : QPWriter) (c : Char) : QPWriter × List Char :=
  let (w1, out1) :=
    if qpLineMaxLen - 1 - w.line.length < 3 then qpSoftBreak w else (w, [])
  ({ w1 with line := w1.line ++ ['=', qpHexDigit (c.toNat / 16), qpHexDigit (c.toNat % 16)] },
    out1)

/-- `isWhitespace`: space or tab. -/
def qpIsBlank (c : Char) : Bool := c = ' ' || c = '\t'

/-- `checkLastByte`: a trailing space or tab on the line is re-encoded before
a line break (or close) so it cannot end an emitted line. -/
def qpCheckLastByte (w : QPWriter) : QPWriter × List Char :=
  match w.line.getLast? with
  | some b => if qpIsBlank b then qpEncodeByte { w with line := w.line.dropLast } b
      else (w, [])
  | none => (w, [])

/-- `write` for a single byte routed to the line buffer: CR and LF handling
(with CRLF coalescing via the `cr` flag), soft break at column 75, else
buffer the byte. -/
def qpWriteRaw (w : QPWriter) (c : Char) : QPWriter × List Char :=
  if c = '\n' ∨ c = '\r' then
    if w.cr ∧ c = '\n' then ({ w with cr := false }, [])
    else
      let w1 := if c = '\r' then { w with cr := true } else w
      let (w2, o2) := qpCheckLastByte w1
      let (w3, o3) := qpInsertCRLF w2
      (w3, o2 ++ o3)
  else
    let (w1, o1) := if w.line.length = qpLineMaxLen - 1 then qpSoftBreak w else (w, [])
    ({ w1 with line := w1.line ++ [c], cr := false }, o1)

/-- Byte classification of the outer `Write` (text mode): printable
non-`=` bytes, space, tab, CR and LF go to the line buffer; everything else
is hex-encoded. -/
def qpIsSimple (c : Char) : Bool :=
  let b := c.toNat
  (33 ≤ b && b ≤ 126 && b ≠ 61) || qpIsBlank c || c = '\n' || c = '\r'

/-- One byte of `Writer.Write`. -/
def qpWrite1 (w : QPWriter) (c : Char) : QPWriter × List Char :=
  if qpIsSimple c then qpWriteRaw w c else qpEncodeByte w c

/-- `Writer.Write` over a byte sequence: (final state, bytes emitted to the
underlying writer). -/
def qpWrite (w : QPWriter) (s : List Char) : QPWriter × List Char :=
  s.foldl (fun acc c =>
    let r := qpWrite1 acc.1 c
    (r.1, acc.2 ++ r.2)) (w, [])

/-- `Writer.Close`: re-encode a trailing blank, then flush the remaining
buffered line.  The source never invokes this on the part writer. -/
def qpClose (w : QPWriter) : List Char :=
  let (w1, o1) := qpCheckLastByte w
  o1 ++ w1.line

/-- Base64 value of one alphabet character (`StdEncoding`). -/
def b64Val (c : Char) : Option Nat :=
  let b := c.toNat
  if 65 ≤ b ∧ b ≤ 90 then some (b - 65)
  else if 97 ≤ b ∧ b ≤ 122 then some (b - 71)
  else if 48 ≤ b ∧ b ≤ 57 then some (b + 4)
  else if b = 43 then some 62
  else if b = 47 then some 63
  else none

/-- `base64.NewDecoder(base64.StdEncoding, ...)` on a well-formed input:
decode quadruples, honouring `=` padding. -/
def base64DecodeList : List Char → List Char
  | c1 :: c2 :: c3 :: c4 :: rest =>
    match b64Val c1, b64Val c2 with
    | some v1, some v2 =>
      let b1 := Char.ofNat (v1 * 4 + v2 / 16)
      if c3 = '=' then [b1]
      else
        match b64Val c3 with
        | some v3 =>
          let b2 := Char.ofNat ((v2 % 16) * 16 + v3 / 4)
          if c4 = '=' then [b1, b2]
          else
            match b64Val c4 with
            | some v4 => b1 :: b2 :: Char.ofNat ((v3 % 4) * 64 + v4) :: base64DecodeList rest
            | none => [b1, b2]
        | none => [b1]
    | _, _ => []
  | _ => []

/-- Base64 decoding of a string body. -/
def base64Decode (s : String) : String := String.mk (base64DecodeList s.toList)

/-- Hexadecimal value of one character. -/
def hexVal (c : Char) : Option Nat :=
  let b := c.toNat
  if 48 ≤ b ∧ b ≤ 57 then some (b - 48)
  else if 65 ≤ b ∧ b ≤ 70 then some (b - 55)
  else if 97 ≤ b ∧ b ≤ 102 then some (b - 87)
  else none

/-- `quotedprintable.NewReader` on well-formed input: `=XX` hex escapes are
decoded, soft line breaks (`=` CRLF) removed, other bytes pass through.  (No
claim exercises this branch; it is present to mirror the source's
`quoted-printable` decode arm.) -/
def qpDecodeList : List Char → List Char
  | [] => []
  | '=' :: a :: b :: rest =>
    if a = '\r' ∧ b = '\n' then qpDecodeList rest
    else
      match hexVal a, hexVal b with
      | some x, some y => Char.ofNat (x * 16 + y) :: qpDecodeList rest
      | _, _ => '=' :: a :: b :: qpDecodeList rest
  | c :: rest => c :: qpDecodeList rest

/-- Quoted-printable decoding of a string body. -/
def qpDecode (s : String) : String := String.mk (qpDecodeList s.toList)

/-- Space or tab. -/
def isWS (c : Char) : Bool := c = ' ' || c = '\t'

/-- Trim blanks from both ends of a character list. -/
def trimChars (l : List Char) : List Char :=
  ((l.dropWhile isWS).reverse.dropWhile isWS).reverse

/-- Lower-case a character list. -/
def lowerChars (l : List Char) : List Char := l.map Char.toLower

/-- Split a character list on a separator character. -/
def splitListOn (c : Char) : List Char → List (List Char)
  | [] => [[]]
  | x :: xs =>
    if x = c then [] :: splitListOn c xs
    else
      match splitListOn c xs with
      | [] => [[x]]
      | h :: t => (x :: h) :: t

/-- `strings.HasPrefix`. -/
def strStarts (pre s : String) : Bool := pre.toList.isPrefixOf s.toList

/-- `mime.ParseMediaType`, restricted to the simple shapes exercised here:
the media type is the segment before the first `;`, trimmed and lowered; the
parameters are simple `key=value` segments; an empty media type is an
error (`none`). -/
def parseMediaType (v : String) : Option (String × List (String × String)) :=
  match splitListOn ';' v.toList with
  | [] => none
  | m :: ps =>
    let mt := String.mk (lowerChars (trimChars m))
    if mt = "" then none
    else
      some (mt, ps.filterMap fun p =>
        match splitListOn '=' (trimChars p) with
        | [k, val] => some (String.mk (lowerChars (trimChars k)), String.mk (trimChars val))
        | _ => none)

/-- Parameter lookup (`params["boundary"]`); a missing key yields `""`. -/
def paramGet (params : List (String × String)) (k : String) : String :=
  match params.find? (fun kv => kv.1 == k) with
  | some kv => kv.2
  | none => ""

/-- The `Content-Type` / `Content-Transfer-Encoding` pair of one MIME part's
header, as read by `p.Header.Get`. -/
structure PartHeader where
  contentType : String
  cte : String

/-- The part structure the (external) MIME readers yield from a body:
either a leaf byte stream, or the (possibly empty) list of sub-parts of a
multipart body, represented as a `pnil`/`pcons` chain so that the whole tree
is one inductive type. -/
inductive MimeTree where
  | leaf (body : String)
  | pnil
  | pcons (hdr : PartHeader) (child : MimeTree) (rest : MimeTree)

/-- A size bound on the transcoder recursion depth for a tree. -/
def treeFuel : MimeTree → Nat
  | .leaf _ => 1
  | .pnil => 1
  | .pcons _ child rest => treeFuel child + treeFuel rest + 1

/-- `multipart.Writer.CreatePart` on a fresh writer with boundary `bound`:
the opening separator line `--bound` CRLF, then the header fields in sorted
key order (`Content-Transfer-Encoding` sorts before `Content-Type`), then a
blank line. -/
def createPartBytes (bound cType cte : String) : String :=
  "--" ++ bound ++ "\r\n" ++
  "Content-Transfer-Encoding: " ++ cte ++ "\r\n" ++
  "Content-Type: " ++ cType ++ "\r\n" ++ "\r\n"

/-- The two mutually recursive procedures of the transcoder, as one
fuel-indexed function (the mutual recursion of `handleMessagePart` and
`handleMultiPart` is bounded by the part tree, so `treeFuel` fuel suffices;
the fuel only makes the recursion structural, it never runs out on the
wrappers below). -/
inductive TranscodeCall where
  | part (cType cte : String) (e : MimeTree)
  | loop (bound : String) (parts : MimeTree)

/-- `handleMessagePart` (`.part`): dispatch on the parsed media type.
`text/html` leaves are decoded per the declared transfer encoding and
re-encoded through a `quotedprintable.Writer` wrapped around `dst` — a
writer that is never closed, so only what `Write` itself flushed reaches
`dst`.  `multipart/*` recurses into the part loop after the one-line
preamble; `message/rfc822` is not modelled (no claim exercises it); every
other media type passes through byte-exact (`handlePlainPart`).

`handleMultiPart`'s loop (`.loop`): each sub-part goes through `CreatePart`
(HTML parts get their output `Content-Transfer-Encoding` forced to
quoted-printable, all others keep the input value) followed by the
recursively transcoded part body and a CRLF; after the last part the source
writes the terminating line `"--" + bound + CRLF` — with no trailing `--`.
`none` models an error return. -/
def transcodeF (fuel : Nat) : TranscodeCall → Option String :=
  match fuel with
  | 0 => fun _ => none
  | fuel + 1 => fun c =>
    match c with
    | .part cType cte e =>
      match parseMediaType cType with
      | none => none
      | some (mediaType, params) =>
        if strStarts "text/html" mediaType then
          match e with
          | .leaf body =>
            let decoded :=
              if cte = "base64" then base64Decode body
              else if cte = "quoted-printable" then qpDecode body
              else body
            some (String.mk (qpWrite qpWriterNew decoded.toList).2)
          | _ => none
        else if strStarts "multipart/" mediaType then
          match e with
          | .leaf _ => none
          | _ =>
            match transcodeF fuel (.loop (paramGet params "boundary") e) with
            | none => none
            | some out =>
              some ("This is a multi-part message in MIME format.\r\n" ++ out)
        else if strStarts "message/rfc822" mediaType then none
        else
          match e with
          | .leaf body => some body
          | _ => none
    | .loop bound parts =>
      match parts with
      | .leaf _ => none
      | .pnil => some ("--" ++ bound ++ "\r\n")
      | .pcons hdr e rest =>
        let phCTE :=
          if strStarts "text/html" hdr.contentType then "quoted-printable"
          else hdr.cte
        match transcodeF fuel (.part hdr.contentType hdr.cte e) with
        | none => none
        | some body =>
          match transcodeF fuel (.loop bound rest) with
          | none => none
          | some restOut =>
            some (createPartBytes bound hdr.contentType phCTE ++ body ++
              "\r\n" ++ restOut)

/-- `handleMessagePart` entry point. -/
def handleMessagePart (cType cte : String) (e : MimeTree) : Option String :=
  transcodeF (treeFuel e + 1) (.part cType cte e)

/-- `handleMultiPart` entry point: preamble line, part loop, terminating
boundary line. -/
def handleMultiPart (bound : String) (parts : MimeTree) : Option String :=
  match transcodeF (treeFuel parts + 1) (.loop bound parts) with
  | none => none
  | some out => some ("This is a multi-part message in MIME format.\r\n" ++ out)

/-- `handlePlainPart`: byte-exact passthrough. -/
def handlePlainPart (src : String) : String := src

/-- `handleHTMLPart`: byte-exact copy into its (possibly wrapping)
destination writer. -/
def handleHTMLPart (src : String) : String := src

/-- Valid MIME header-field token character (`validHeaderFieldByte`). -/
def validHeaderFieldChar (c : Char) : Bool :=
  let b := c.toNat
  (48 ≤ b && b ≤ 57) || (65 ≤ b && b ≤ 90) || (97 ≤ b && b ≤ 122) ||
  b = 33 || (35 ≤ b && b ≤ 39) || b = 42 || b = 43 || b = 45 || b = 46 ||
  b = 94 || b = 95 || b = 96 || b = 124 || b = 126

/-- Case loop of `textproto.CanonicalMIMEHeaderKey`: upper-case the first
letter and every letter after a hyphen, lower-case the rest. -/
def canonLoop : Bool → List Char → List Char
  | _, [] => []
  | upper, c :: rest =>
    let c2 := if upper then c.toUpper else c.toLower
    c2 :: canonLoop (c2 = '-') rest

/-- `textproto.CanonicalMIMEHeaderKey`: keys containing invalid bytes are
returned unchanged; valid keys are canonically cased. -/
def canonicalMIMEHeaderKey (k : String) : String :=
  if k.toList.all validHeaderFieldChar then String.mk (canonLoop true k.toList)
  else k

/-- One non-folded header line as read by `textproto.ReadMIMEHeader`: split
at the first colon, canonicalize the key, trim leading spaces and tabs off
the value; a line without a colon is a parse error. -/
def parseHeaderLine (l : String) : Option (String × String) :=
  let k := l.toList.takeWhile (· ≠ ':')
  match l.toList.dropWhile (· ≠ ':') with
  | [] => none
  | _ :: valRest =>
    some (canonicalMIMEHeaderKey (String.mk k),
      String.mk (valRest.dropWhile fun c => c = ' ' || c = '\t'))

/-- A raw single-part message presented to `mail.ReadMessage`: non-folded
header lines (without their CRLF) and the body following the blank line. -/
structure RawMessage where
  headerLines : List String
  body : String

/-- The byte stream of a raw message. -/
def serializeMessage (m : RawMessage) : String :=
  String.join (m.headerLines.map (· ++ "\r\n")) ++ "\r\n" ++ m.body

/-- `Header.Get`: first value of a key, `""` when absent. -/
def headerGet (hdrs : List (String × String)) (k : String) : String :=
  match hdrs.find? (fun kv => kv.1 == k) with
  | some kv => kv.2
  | none => ""

/-- `mailCopy`: parse the message, re-emit every header field as
`Key: value` CRLF, emit the blank-line delimiter, then hand the body to
`handleMessageBody` with the `Content-Type` and
`Content-Transfer-Encoding` header values.  The Go header map iterates in
unspecified order; this model emits fields in input order, which coincides
with the program for messages with at most one header field (the only case a
theorem below relies on).  `e` is the body as structured by the (external)
MIME readers. -/
def mailCopy (m : RawMessage) (e : MimeTree) : Option String :=
  match m.headerLines.mapM parseHeaderLine with
  | none => none
  | some hdrs =>
    let headerOut := String.join (hdrs.map fun kv => kv.1 ++ ": " ++ kv.2 ++ "\r\n")
    match handleMessagePart (headerGet hdrs "Content-Type")
        (headerGet hdrs "Content-Transfer-Encoding") e with
    | none => none
    | some bodyOut => some (headerOut ++ "\r\n" ++ bodyOut)

/-- Number of (possibly overlapping) occurrences of `pat` in a character
list. -/
def countOccurList (pat : List Char) : List Char → Nat
  | [] => 0
  | c :: rest => (if pat.isPrefixOf (c :: rest) then 1 else 0) + countOccurList pat rest

/-- Number of occurrences of `pat` in `s`. -/
def countOccur (s pat : String) : Nat := countOccurList pat.toList s.toList

/-- The C4 input: a `multipart/mixed` body with boundary `xyz` and three
`text/plain` leaf sub-parts. -/
def multi3Input : MimeTree :=
  .pcons ⟨"text/plain", "7bit"⟩ (.leaf "one")
    (.pcons ⟨"text/plain", "7bit"⟩ (.leaf "two")
      (.pcons ⟨"text/plain", "7bit"⟩ (.leaf "three") .pnil))

/-- The transcoder's re-serialization of `multi3Input` under boundary
`xyz`. -/
def multi3Output : String :=
  "This is a multi-part message in MIME format.\r\n" ++
  "--xyz\r\nContent-Transfer-Encoding: 7bit\r\nContent-Type: text/plain\r\n\r\none\r\n" ++
  "--xyz\r\nContent-Transfer-Encoding: 7bit\r\nContent-Type: text/plain\r\n\r\ntwo\r\n" ++
  "--xyz\r\nContent-Transfer-Encoding: 7bit\r\nContent-Type: text/plain\r\n\r\nthree\r\n" ++
  "--xyz\r\n"

/-! ## Theorems -/

theorem lsStep_out (L : Nat) (sep : List Byte) (o : List Byte) (c : Nat) (b : Byte) :
    lsStep L sep (o, c) b =
      (o ++ (lsStep L sep ([], c) b).1, (lsStep L sep ([], c) b).2) := by
  by_cases h : L ≤ c + 1 <;> simp [lsStep, h]

theorem lsRun_from (L : Nat) (sep : List Byte) (xs : List Byte) (o : List Byte) (c : Nat) :
    xs.foldl (lsStep L sep) (o, c) =
      (o ++ (lsRun L sep xs c).1, (lsRun L sep xs c).2) := by
  induction xs generalizing o c with
  | nil => simp [lsRun]
  | cons x xs ih =>
    simp only [lsRun, List.foldl_cons]
    rw [lsStep_out]
    rw [ih]
    conv_rhs => rw [show lsStep L sep ([], c) x =
      ((lsStep L sep ([], c) x).1, (lsStep L sep ([], c) x).2) from rfl]
    rw [ih]
    simp [List.append_assoc]

theorem lsRun_concat (L : Nat) (sep : List Byte) (a b : List Byte) (c : Nat) :
    lsRun L sep (a ++ b) c =
      ((lsRun L sep a c).1 ++ (lsRun L sep b (lsRun L sep a c).2).1,
        (lsRun L sep b (lsRun L sep a c).2).2) := by
  unfold lsRun
  rw [List.foldl_append]
  rw [show (a.foldl (lsStep L sep) ([], c)) =
    ((a.foldl (lsStep L sep) ([], c)).1, (a.foldl (lsStep L sep) ([], c)).2) from rfl]
  rw [lsRun_from]
  rfl

theorem lsRun_lt (L : Nat) (sep : List Byte) (xs : List Byte) (c : Nat)
    (h : c + xs.length < L) : lsRun L sep xs c = (xs, c + xs.length) := by
  induction xs generalizing c with
  | nil => simp [lsRun]
  | cons x xs ih =>
    simp only [lsRun, List.foldl_cons]
    have hlt : ¬ L ≤ c + 1 := by simp at h; omega
    simp only [lsStep, hlt, if_false]
    rw [lsRun_from]
    rw [show lsRun L sep xs (c + 1) = (xs, (c + 1) + xs.length) from
      ih (c + 1) (by simp at h ⊢; omega)]
    simp
    omega

theorem lsRun_exact (L : Nat) (sep : List Byte) (xs : List Byte) (c : Nat)
    (hne : 1 ≤ xs.length) (h : c + xs.length = L) :
    lsRun L sep xs c = (xs ++ sep, 0) := by
  induction xs generalizing c with
  | nil => simp at hne
  | cons x xs ih =>
    simp only [lsRun, List.foldl_cons]
    cases xs with
    | nil =>
      have hL : L ≤ c + 1 := by simp at h; omega
      simp [lsStep, hL, lsRun]
    | cons y ys =>
      have hlt : ¬ L ≤ c + 1 := by simp at h; omega
      simp only [lsStep, hlt, if_false]
      rw [lsRun_from]
      rw [ih (c + 1) (by simp) (by simp at h ⊢; omega)]
      simp

theorem lsRun_count_lt (L : Nat) (sep : List Byte) (xs : List Byte) (c : Nat)
    (hL : 0 < L) (h : c < L) : (lsRun L sep xs c).2 < L := by
  induction xs generalizing c with
  | nil => simpa [lsRun] using h
  | cons x xs ih =>
    simp only [lsRun, List.foldl_cons]
    rw [lsRun_from]
    by_cases hc : L ≤ c + 1
    · simp only [lsStep, hc, if_true]
      exact ih 0 hL
    · simp only [lsStep, hc, if_false]
      exact ih (c + 1) (by omega)

/-- Bridge: the chunked `Write` loop of the source agrees with the
byte-at-a-time reference run, for any count below `L`. -/
theorem lsWriteF_eq_run (L : Nat) (sep : List Byte) (fuel : Nat)
    (inp : List Byte) (c : Nat) (hfuel : inp.length ≤ fuel)
    (hL : 0 < L) (hc : c < L) :
    lsWriteF L sep fuel inp c = lsRun L sep inp c := by
  induction fuel generalizing inp c with
  | zero =>
    have : inp = [] := List.length_eq_zero.mp (Nat.le_zero.mp hfuel)
    subst this
    simp [lsWriteF, lsRun]
  | succ fuel ih =>
    cases inp with
    | nil => simp [lsWriteF, lsRun]
    | cons b bs =>
      have hlen1 : 1 ≤ (b :: bs).length := by simp
      have hcs1 : 1 ≤ min (b :: bs).length (L - c) :=
        le_min hlen1 (by omega)
      have hcsne : ¬ (min (b :: bs).length (L - c) = 0) := by omega
      have hcsle : min (b :: bs).length (L - c) ≤ (b :: bs).length :=
        Nat.min_le_left _ _
      have hcsle2 : min (b :: bs).length (L - c) ≤ L - c :=
        Nat.min_le_right _ _
      have hcsor : min (b :: bs).length (L - c) = (b :: bs).length ∨
          min (b :: bs).length (L - c) = L - c := by
        rcases Nat.le_total (b :: bs).length (L - c) with h | h
        · exact Or.inl (Nat.min_eq_left h)
        · exact Or.inr (Nat.min_eq_right h)
      simp only [lsWriteF, hcsne, if_false]
      set cs := min (b :: bs).length (L - c) with hcs
      by_cases hbig : L ≤ c + cs
      · -- a full group completes: chunk, separator, then loop from count 0
        have hdroplen : ((b :: bs).drop cs).length ≤ fuel := by
          rw [List.length_drop]
          have : (b :: bs).length ≤ fuel + 1 := hfuel
          omega
        have hr := ih ((b :: bs).drop cs) 0 hdroplen hL
        simp only [hbig, if_true]
        rw [hr]
        have hsplit : (b :: bs) = (b :: bs).take cs ++ (b :: bs).drop cs :=
          (List.take_append_drop cs (b :: bs)).symm
        conv_rhs => rw [hsplit]
        rw [lsRun_concat]
        have htklen : ((b :: bs).take cs).length = cs := by
          rw [List.length_take]
          omega
        have htk : lsRun L sep ((b :: bs).take cs) c = ((b :: bs).take cs ++ sep, 0) := by
          apply lsRun_exact
          · omega
          · omega
        rw [htk]
      · -- the input ran out before a group completed
        have hcseq : cs = (b :: bs).length := by omega
        have htake : (b :: bs).take cs = b :: bs := by
          rw [hcseq]
          simp
        simp only [hbig, if_false]
        rw [htake]
        rw [lsRun_lt L sep (b :: bs) c (by omega)]
        exact Prod.ext rfl (by omega)

/-- The byte-at-a-time run from count 0 produces exactly the spec's group
shape. -/
theorem lsRun_groups (L : Nat) (sep : List Byte) (fuel : Nat) (bs : List Byte)
    (hfuel : bs.length ≤ fuel) (hL : 0 < L) :
    (lsRun L sep bs 0).1 = lsGroupsF L sep fuel bs := by
  induction fuel generalizing bs with
  | zero =>
    have : bs = [] := List.length_eq_zero.mp (Nat.le_zero.mp hfuel)
    subst this
    simp [lsRun, lsGroupsF]
  | succ fuel ih =>
    cases bs with
    | nil => simp [lsRun, lsGroupsF]
    | cons b bs' =>
      by_cases hlen : (b :: bs').length < L
      · rw [lsRun_lt L sep (b :: bs') 0 (by omega)]
        have hlen' : bs'.length + 1 < L := by simpa using hlen
        simp [lsGroupsF, hlen']
      · have hsplit : (b :: bs') = (b :: bs').take L ++ (b :: bs').drop L :=
          (List.take_append_drop L (b :: bs')).symm
        conv_lhs => rw [hsplit]
        rw [lsRun_concat]
        have htklen : ((b :: bs').take L).length = L := by
          rw [List.length_take]
          omega
        have htk : lsRun L sep ((b :: bs').take L) 0 = ((b :: bs').take L ++ sep, 0) := by
          apply lsRun_exact
          · omega
          · omega
        rw [htk]
        have hdroplen : ((b :: bs').drop L).length ≤ fuel := by
          rw [List.length_drop]
          have : (b :: bs').length ≤ fuel + 1 := hfuel
          omega
        have hlen' : ¬ (bs'.length + 1 < L) := by simpa using hlen
        rw [show lsGroupsF L sep (fuel + 1) (b :: bs') =
          (b :: bs').take L ++ sep ++ lsGroupsF L sep fuel ((b :: bs').drop L) by
            simp [lsGroupsF, hlen']]
        rw [← ih _ hdroplen]

/-- Piecewise writing agrees with the byte-at-a-time run over the
concatenation of the pieces. -/
theorem lsWriteSeq_run (L : Nat) (sep : List Byte) (ps : List (List Byte))
    (o : List Byte) (c : Nat) (hL : 0 < L) (hc : c < L) :
    ps.foldl (lsWriteStep L sep) (o, c) =
      (o ++ (lsRun L sep ps.flatten c).1, (lsRun L sep ps.flatten c).2) := by
  induction ps generalizing o c with
  | nil => simp [lsRun]
  | cons p ps ih =>
    have hw : lsWrite L sep p c = lsRun L sep p c :=
      lsWriteF_eq_run L sep p.length p c le_rfl hL hc
    have hc2 : (lsRun L sep p c).2 < L := lsRun_count_lt L sep p c hL hc
    rw [List.foldl_cons]
    have hhead : lsWriteStep L sep (o, c) p =
        (o ++ (lsRun L sep p c).1, (lsRun L sep p c).2) := by
      show (o ++ (lsWrite L sep p c).1, (lsWrite L sep p c).2) = _
      rw [hw]
    rw [hhead]
    rw [ih (o ++ (lsRun L sep p c).1) (lsRun L sep p c).2 hc2]
    rw [List.flatten_cons]
    rw [lsRun_concat]
    simp [List.append_assoc]

/-- C8. Writing any byte sequence through the line splitter in arbitrarily
sized consecutive pieces produces the same output as one `Write` of the whole
sequence, and that output is the spec's shape: groups of exactly `L` bytes
each followed by `sep`, a final shorter group unseparated.  The
count-within-chunk state carried across `Write` calls makes the splitter a
homomorphism over concatenation. -/
theorem linesplitter_piecewise_write_eq_whole (L : Nat) (sep : List Byte)
    (ps : List (List Byte)) (hL : 1 ≤ L) :
    (lsWriteSeq L sep ps).1 = (lsWrite L sep ps.flatten 0).1 ∧
    (lsWrite L sep ps.flatten 0).1 = lsGroups L sep ps.flatten := by
  have hrun : lsWrite L sep ps.flatten 0 = lsRun L sep ps.flatten 0 :=
    lsWriteF_eq_run L sep ps.flatten.length ps.flatten 0 le_rfl hL (by omega)
  constructor
  · unfold lsWriteSeq
    rw [lsWriteSeq_run L sep ps [] 0 hL (by omega)]
    rw [hrun]
    simp
  · rw [hrun]
    exact lsRun_groups L sep ps.flatten.length ps.flatten le_rfl hL

/-- Witness for C8 at a concrete instance: L = 3, sep = CRLF, pieces
[1,2] / [3,4,5] / [6]. -/
theorem linesplitter_piecewise_write_eq_whole_witness :
    (1 ≤ 3) ∧
    ((lsWriteSeq 3 [13, 10] [[1, 2], [3, 4, 5], [6]]).1 =
        (lsWrite 3 [13, 10] [[1, 2], [3, 4, 5], [6]].flatten 0).1 ∧
      (lsWrite 3 [13, 10] [[1, 2], [3, 4, 5], [6]].flatten 0).1 =
        lsGroups 3 [13, 10] [[1, 2], [3, 4, 5], [6]].flatten) :=
  ⟨by decide, linesplitter_piecewise_write_eq_whole 3 [13, 10]
    [[1, 2], [3, 4, 5], [6]] (by decide)⟩

/-- C1. For every non-DATA phase command on an unblocked session, the
(code, message, error) triple returned to the client is exactly what the
upstream `MyCmd` reports for the joined command text, with no local
translation; the joined text is `cmd` when `arg` is empty and
`cmd ++ " " ++ arg` otherwise. -/
theorem passthru_transparency (s : Session) (ec : Nat) (cmd arg : String)
    (h : s.blockUpstream = false) :
    (sessionAuth s ec cmd arg).1 = s.upstream.myCmdResp ec (joinCmd cmd arg) ∧
    (sessionMail s ec cmd arg).1 = s.upstream.myCmdResp ec (joinCmd cmd arg) ∧
    (sessionRcpt s ec cmd arg).1 = s.upstream.myCmdResp ec (joinCmd cmd arg) ∧
    (sessionReset s ec cmd arg).1 = s.upstream.myCmdResp ec (joinCmd cmd arg) ∧
    (sessionQuit s ec cmd arg).1 = s.upstream.myCmdResp ec (joinCmd cmd arg) ∧
    (sessionUnknown s ec cmd arg).1 = s.upstream.myCmdResp ec (joinCmd cmd arg) ∧
    (sessionPassthru s ec cmd arg).1 = s.upstream.myCmdResp ec (joinCmd cmd arg) ∧
    joinCmd cmd "" = cmd ∧
    (arg ≠ "" → joinCmd cmd arg = cmd ++ " " ++ arg) := by
  refine ⟨?_, ?_, ?_, ?_, ?_, ?_, ?_, by simp [joinCmd], fun ha => by simp [joinCmd, ha]⟩
  all_goals
    simp [sessionAuth, sessionMail, sessionRcpt, sessionReset, sessionQuit,
      sessionUnknown, sessionPassthru, h]

/-- Witness for C1 at a concrete unblocked session and command. -/
theorem passthru_transparency_witness :
    (({ upstream :=
          { isTLS := false
            startTLSResp := (220, "2.0.0 Ready to start TLS", none)
            myCmdResp := fun ec j => (ec, "did " ++ j, none)
            dataResp := (354, "go", none) }
        blockUpstream := false } : Session).blockUpstream = false) ∧
    (sessionMail
        { upstream :=
            { isTLS := false
              startTLSResp := (220, "2.0.0 Ready to start TLS", none)
              myCmdResp := fun ec j => (ec, "did " ++ j, none)
              dataResp := (354, "go", none) }
          blockUpstream := false } 250 "MAIL" "FROM:<a@b>").1 =
      (250, "did MAIL FROM:<a@b>", none) := by
  have h := passthru_transparency
    { upstream :=
        { isTLS := false
          startTLSResp := (220, "2.0.0 Ready to start TLS", none)
          myCmdResp := fun ec j => (ec, "did " ++ j, none)
          dataResp := (354, "go", none) }
      blockUpstream := false } 250 "MAIL" "FROM:<a@b>" rfl
  exact ⟨rfl, by rw [h.2.1]; rfl⟩

/-- Counterexample to C2 as stated: on a blocked session whose upstream
connection is already TLS-secured, `Session.StartTLS` takes the already-secure
branch (checked before the blocked flag) and returns code 220 with a success
message, not the fixed block response with code 500. -/
theorem blocked_session_starttls_cex :
    blockedTLSSession.blockUpstream = true ∧
    (sessionStartTLS blockedTLSSession).1 = alreadySecureResp ∧
    (sessionStartTLS blockedTLSSession).1 ≠ blockResp ∧
    (sessionStartTLS blockedTLSSession).1.1 = 220 ∧
    upstreamBlockCode = 500 := by
  refine ⟨rfl, rfl, ?_, rfl, rfl⟩
  decide

/-- On a blocked session every phase call leaves the session unchanged and
performs no upstream I/O. -/
theorem runPhases_blocked (s : Session) (h : s.blockUpstream = true)
    (ps : List Phase) : runPhases s ps = (s, []) := by
  have hstep : ∀ p, stepPhase s p = (s, []) := by
    intro p
    cases p with
    | startTLSPhase =>
      simp only [stepPhase, sessionStartTLS, h]
      by_cases htls : s.upstream.isTLS <;> simp [htls]
    | passthruPhase ec cmd arg => simp [stepPhase, sessionPassthru, h]
    | dataPhase => simp [stepPhase, sessionDataCommand, h]
  suffices H : ∀ (ps : List Phase) (acc : List UpCall),
      ps.foldl (fun acc p =>
        let r := stepPhase acc.1 p
        (r.1, acc.2 ++ r.2)) (s, acc) = (s, acc) by
    simpa [runPhases] using H ps []
  intro ps
  induction ps with
  | nil => intro acc; rfl
  | cons p ps ih =>
    intro acc
    simp only [List.foldl_cons, hstep p]
    simpa using ih acc

/-- C2 (amended). Once a session's blocked flag is true, every subsequent
phase call performs no upstream I/O and leaves the session unchanged, and
`Passthru`-based commands and `DataCommand` return the fixed block response
(code 500); `Session.StartTLS` also short-circuits without upstream I/O, but
when the upstream connection is already TLS-secured it returns the
already-secure success (code 220) rather than the block response, because the
already-secure check precedes the blocked-flag check. -/
theorem blocked_session_short_circuits (s : Session) (h : s.blockUpstream = true) :
    (∀ ec cmd arg, sessionPassthru s ec cmd arg = (blockResp, [])) ∧
    (∀ ec cmd arg, sessionAuth s ec cmd arg = (blockResp, []) ∧
      sessionMail s ec cmd arg = (blockResp, []) ∧
      sessionRcpt s ec cmd arg = (blockResp, []) ∧
      sessionReset s ec cmd arg = (blockResp, []) ∧
      sessionQuit s ec cmd arg = (blockResp, []) ∧
      sessionUnknown s ec cmd arg = (blockResp, [])) ∧
    sessionDataCommand s = (blockResp, []) ∧
    (sessionStartTLS s).2.1 = s ∧
    (sessionStartTLS s).2.2 = [] ∧
    (s.upstream.isTLS = false → (sessionStartTLS s).1 = blockResp) ∧
    (s.upstream.isTLS = true → (sessionStartTLS s).1 = alreadySecureResp) ∧
    (∀ ps, runPhases s ps = (s, [])) := by
  refine ⟨?_, ?_, ?_, ?_, ?_, ?_, ?_, runPhases_blocked s h⟩
  · intro ec cmd arg; simp [sessionPassthru, h]
  · intro ec cmd arg
    refine ⟨?_, ?_, ?_, ?_, ?_, ?_⟩ <;>
      simp [sessionAuth, sessionMail, sessionRcpt, sessionReset, sessionQuit,
        sessionUnknown, sessionPassthru, h]
  · simp [sessionDataCommand, h]
  · simp only [sessionStartTLS, h]
    by_cases htls : s.upstream.isTLS <;> simp [htls]
  · simp only [sessionStartTLS, h]
    by_cases htls : s.upstream.isTLS <;> simp [htls]
  · intro htls; simp [sessionStartTLS, htls, h]
  · intro htls; simp [sessionStartTLS, htls]

/-- Witness for C2 (amended) on a concrete blocked plaintext session. -/
theorem blocked_session_short_circuits_witness :
    blockedPlainSession.blockUpstream = true ∧
    sessionPassthru blockedPlainSession 250 "MAIL" "FROM:<a@b>" = (blockResp, []) ∧
    sessionDataCommand blockedPlainSession = (blockResp, []) ∧
    (sessionStartTLS blockedPlainSession).1 = blockResp ∧
    runPhases blockedPlainSession
      [.startTLSPhase, .passthruPhase 250 "MAIL" "FROM:<a@b>", .dataPhase] =
      (blockedPlainSession, []) := by
  have h := blocked_session_short_circuits blockedPlainSession rfl
  exact ⟨rfl, h.1 250 "MAIL" "FROM:<a@b>", h.2.2.1, h.2.2.2.2.2.1 rfl,
    h.2.2.2.2.2.2.2 [.startTLSPhase, .passthruPhase 250 "MAIL" "FROM:<a@b>", .dataPhase]⟩

/-- C7. `Session.StartTLS` is idempotent: on an already-TLS upstream
connection it immediately returns the already-secure success (220, nil error)
with no upstream negotiation and no state change; consequently, after any
successful `StartTLS` call a second call returns that success and leaves the
session unchanged. -/
theorem starttls_idempotent (s : Session) :
    (s.upstream.isTLS = true → sessionStartTLS s = (alreadySecureResp, s, [])) ∧
    ((sessionStartTLS s).1.2.2 = none →
      sessionStartTLS (sessionStartTLS s).2.1 =
        (alreadySecureResp, (sessionStartTLS s).2.1, [])) := by
  constructor
  · intro htls
    simp [sessionStartTLS, htls]
  · intro herr
    by_cases htls : s.upstream.isTLS
    · simp [sessionStartTLS, htls]
    · by_cases hb : s.blockUpstream
      · exfalso
        simp [sessionStartTLS, htls, hb, blockResp] at herr
      · have hr : (sessionStartTLS s).1 = s.upstream.startTLSResp := by
          simp [sessionStartTLS, htls, hb]
        rw [hr] at herr
        have hs2 : (sessionStartTLS s).2.1 =
            { s with upstream := { s.upstream with isTLS := true } } := by
          simp [sessionStartTLS, htls, hb, herr]
        rw [hs2]
        simp [sessionStartTLS]

/-- Witness for C7: two consecutive `StartTLS` calls on a secured session. -/
theorem starttls_idempotent_witness :
    sessionStartTLS secureSession = (alreadySecureResp, secureSession, []) ∧
    sessionStartTLS (sessionStartTLS secureSession).2.1 =
      (alreadySecureResp, (sessionStartTLS secureSession).2.1, []) :=
  ⟨(starttls_idempotent secureSession).1 rfl,
    (starttls_idempotent secureSession).2 rfl⟩

/-- C10. `Backend.Init` always returns a nil error: on a dial failure it
still hands back a session whose upstream client field is the failed (nil)
client, and (when verbose) the connection-success line is logged even after
the failure, so session-creation never surfaces the connection failure. -/
theorem backend_init_never_fails (bkd : Backend) (e : String) (c : Client) :
    (backendInit bkd (.error e)).err = none ∧
    (backendInit bkd (.ok c)).err = none ∧
    (backendInit bkd (.error e)).upstream = none ∧
    (backendInit bkd (.ok c)).upstream = some c ∧
    (bkd.verbose = true →
      ("Connection success " ++ bkd.outHostPort) ∈ (backendInit bkd (.error e)).logs) := by
  refine ⟨rfl, rfl, rfl, rfl, fun hv => ?_⟩
  simp [backendInit, hv]

/-- Witness for C10 on a concrete verbose backend and a failed dial. -/
theorem backend_init_never_fails_witness :
    (backendInit ⟨"smtp.example.com:587", true, false⟩
        (.error "connection refused")).err = none ∧
    (backendInit ⟨"smtp.example.com:587", true, false⟩
        (.error "connection refused")).upstream = none ∧
    ("Connection success " ++ "smtp.example.com:587") ∈
      (backendInit ⟨"smtp.example.com:587", true, false⟩
        (.error "connection refused")).logs := by
  have h := backend_init_never_fails ⟨"smtp.example.com:587", true, false⟩
    "connection refused" plainClient
  exact ⟨h.1, h.2.2.1, h.2.2.2.2 rfl⟩

/-- C5. The error translator maps a `textproto.Error` with code 250 and
message `"2.1.5 OK"` to code 250, enhanced code (2,1,5) and the stripped
message `"OK"`, and maps the plain error `"connection refused"` to code 0,
enhanced code not-set and the verbatim message. -/
theorem errToSmtpErr_examples :
    errToSmtpErr (.textprotoError 250 "2.1.5 OK") =
      { code := 250, enhancedCode := (2, 1, 5), message := "OK" } ∧
    errToSmtpErr (.plainError "connection refused") =
      { code := 0, enhancedCode := EnhancedCodeNotSet,
        message := "connection refused" } := by
  constructor <;> decide

/-- Counterexample to C6 as stated: the near-match message `"a.b.c hello"`
has the separator shape but non-digits in the digit positions; the translator
returns enhanced code not-set, yet the 6-byte front is still stripped, so the
output message is `"hello"`, not the unmodified input text. -/
theorem errToSmtpErr_nearmatch_cex :
    errToSmtpErr (.textprotoError 451 "a.b.c hello") =
      { code := 451, enhancedCode := EnhancedCodeNotSet, message := "hello" } ∧
    ("hello" : String) ≠ "a.b.c hello" := by
  constructor <;> decide

/-- A parse failure in any digit position makes `makeEnhancedCode` fall back
to the not-set sentinel. -/
theorem makeEnhancedCode_notSet (c0 c1 c2 : Char)
    (h : byteDigitToInt c0 = none ∨ byteDigitToInt c1 = none ∨
      byteDigitToInt c2 = none) :
    makeEnhancedCode c0 c1 c2 = EnhancedCodeNotSet := by
  unfold makeEnhancedCode
  rcases h0 : byteDigitToInt c0 with _ | d0 <;>
    rcases h1 : byteDigitToInt c1 with _ | d1 <;>
      rcases h2 : byteDigitToInt c2 with _ | d2 <;>
        simp_all

/-- C6 (amended). For every near-match prefix the enhanced code degrades to
not-set, but the message is left unmodified only when the separator shape
itself fails (wrong separator placement, or message shorter than 6 bytes);
when the separators do match at positions 1, 3, 5 and some digit position
holds a non-digit, the 6-byte front is still stripped from the message. -/
theorem errToSmtpErr_nearmatch (code : Nat) (msg : String)
    (h : sepShapeOk msg = false ∨ digitsOk msg = false) :
    errToSmtpErr (.textprotoError code msg) =
      { code := code
        enhancedCode := EnhancedCodeNotSet
        message := if sepShapeOk msg then String.mk (msg.toList.drop 6) else msg } := by
  by_cases hs : sepShapeOk msg = true
  · -- separator shape matches, so the digits must be the near miss
    have hd : digitsOk msg = false := by
      rcases h with h | h
      · rw [h] at hs; cases hs
      · exact h
    have hshape := hs
    simp only [sepShapeOk, Bool.and_eq_true, decide_eq_true_eq, beq_iff_eq] at hshape
    obtain ⟨⟨⟨h6, h1⟩, h3⟩, h5⟩ := hshape
    have hnone : byteDigitToInt (msg.toList.getD 0 'x') = none ∨
        byteDigitToInt (msg.toList.getD 2 'x') = none ∨
        byteDigitToInt (msg.toList.getD 4 'x') = none := by
      rcases hb0 : byteDigitToInt (msg.toList.getD 0 'x') with _ | d0
      · exact Or.inl rfl
      rcases hb2 : byteDigitToInt (msg.toList.getD 2 'x') with _ | d2
      · exact Or.inr (Or.inl rfl)
      rcases hb4 : byteDigitToInt (msg.toList.getD 4 'x') with _ | d4
      · exact Or.inr (Or.inr rfl)
      exfalso
      simp only [digitsOk] at hd
      rw [hb0, hb2, hb4] at hd
      simp at hd
    simp only [errToSmtpErr]
    rw [if_pos h6, if_pos ⟨h1, h3, h5⟩, if_pos hs,
      makeEnhancedCode_notSet _ _ _ hnone]
  · -- separator shape fails: message passes through unmodified
    have hs0 : sepShapeOk msg = false := by
      cases hb : sepShapeOk msg with
      | false => rfl
      | true => exact absurd hb hs
    rw [if_neg (by rw [hs0]; exact Bool.false_ne_true)]
    by_cases hlen : 6 ≤ msg.toList.length
    · have hsepfail : ¬ (msg.toList.getD 1 'x' = '.' ∧ msg.toList.getD 3 'x' = '.' ∧
          msg.toList.getD 5 'x' = ' ') := by
        intro hc
        have : sepShapeOk msg = true := by
          simp only [sepShapeOk]
          rw [hc.1, hc.2.1, hc.2.2]
          simp only [beq_self_eq_true, Bool.and_true]
          exact decide_eq_true hlen
        rw [this] at hs0; cases hs0
      simp only [errToSmtpErr]
      rw [if_pos hlen, if_neg hsepfail]
    · simp only [errToSmtpErr]
      rw [if_neg hlen]

/-- Witness for C6 (amended) at the near-match input `"a.b.c hello"`. -/
theorem errToSmtpErr_nearmatch_witness :
    (sepShapeOk "a.b.c hello" = false ∨ digitsOk "a.b.c hello" = false) ∧
    errToSmtpErr (.textprotoError 451 "a.b.c hello") =
      { code := 451
        enhancedCode := EnhancedCodeNotSet
        message := if sepShapeOk "a.b.c hello" then
          String.mk (("a.b.c hello" : String).toList.drop 6) else "a.b.c hello" } :=
  ⟨Or.inr (by decide), errToSmtpErr_nearmatch 451 "a.b.c hello" (Or.inr (by decide))⟩

/-- C3 (evaluation at the failing input). The base64 HTML body `"SGVsbG8="`
does decode to `Hello`, and the part header emitted for a `text/html` part
carries `Content-Transfer-Encoding: quoted-printable`; but the emitted part
body is empty — the quoted-printable writer wrapped around the part is never
closed, so its buffered final line (here the whole of `Hello`, which has no
trailing newline) is never flushed.  Had the writer been closed, `Hello`
would have been emitted, as the last conjunct shows. -/
theorem html_base64_part_body_dropped :
    base64Decode "SGVsbG8=" = "Hello" ∧
    handleMessagePart "text/html" "base64" (.leaf "SGVsbG8=") = some "" ∧
    handleMultiPart "b" (.pcons ⟨"text/html", "base64"⟩ (.leaf "SGVsbG8=") .pnil) =
      some ("This is a multi-part message in MIME format.\r\n--b\r\n" ++
        "Content-Transfer-Encoding: quoted-printable\r\nContent-Type: text/html\r\n" ++
        "\r\n\r\n--b\r\n") ∧
    String.mk (qpClose (qpWrite qpWriterNew "Hello".toList).1) = "Hello" := by
  refine ⟨rfl, rfl, rfl, rfl⟩

/-- C4 (evaluation at the failing input). Re-serializing a 3-part
`multipart/mixed` body keeps the boundary token `xyz` and emits exactly 3
part-opening separator lines (the string `--xyz` occurs 4 times: 3 openers
plus the final terminator), but the terminating line the source writes is
`--xyz` CRLF, not the closing-boundary form `--xyz--` CRLF, which never
occurs in the output. -/
theorem multipart_terminator_not_closed :
    handleMultiPart "xyz" multi3Input = some multi3Output ∧
    countOccur multi3Output "--xyz" = 4 ∧
    countOccur multi3Output "--xyz--" = 0 ∧
    ("--xyz\r\n".toList.isSuffixOf multi3Output.toList = true) ∧
    ("--xyz--\r\n".toList.isSuffixOf multi3Output.toList = false) := by
  refine ⟨rfl, by decide, by decide, by decide, by decide⟩

/-- Counterexample to C9 as stated: a single-part `text/plain` message whose
header key is written `content-type` is re-emitted with the canonicalized
key `Content-Type`, so the output is not byte-identical to the input. -/
theorem mailcopy_not_byte_identical_cex :
    mailCopy ⟨["content-type: text/plain"], "hi"⟩ (.leaf "hi") =
      some "Content-Type: text/plain\r\n\r\nhi" ∧
    serializeMessage ⟨["content-type: text/plain"], "hi"⟩ =
      "content-type: text/plain\r\n\r\nhi" ∧
    ("Content-Type: text/plain\r\n\r\nhi" : String) ≠
      "content-type: text/plain\r\n\r\nhi" := by
  refine ⟨rfl, rfl, by decide⟩

/-- C9 (amended). A single-part `text/plain` message with no
transfer-encoding header whose header block is already in the parser's
canonical form (here: the single line `Content-Type: text/plain`) is
byte-identical after transcoding, for every body; the blank-line delimiter
and the body always pass through byte-exact, but header fields are re-emitted
in canonicalized form (and, with several fields, in unspecified order), so
byte-identity cannot be promised for non-canonical headers. -/
theorem mailcopy_plain_canonical_identity (body : String) :
    mailCopy ⟨["Content-Type: text/plain"], body⟩ (.leaf body) =
      some (serializeMessage ⟨["Content-Type: text/plain"], body⟩) := by
  rfl
